import Mathlib

/-!
Verification of the crc2vice conversion tool against its specification.

The development shallowly embeds the program's data model and operations:

* the coordinate formatter `Point2LL.MarshalJSON` (modelled digit-wise by
  `formatDigits`, with IEEE binary32 arithmetic modelled exactly on dyadic
  rationals by `roundF32`);
* the GeoJSON / catalog decoding (modelled on a JSON value tree, mirroring
  the behaviour of Go's `encoding/json` for the struct types in the source);
* the line-segment extraction loop and the directory-walk pipeline of `main`;
* the error-offset diagnostic of the `UnmarshalJSON` wrapper.

All definitions are executable; theorems are stated over these models.
-/

namespace Crc2Vice

/-! ## IEEE binary32 arithmetic on dyadic rationals

The source stores coordinates as Go `float32` and performs the staged
degree/minute/second extraction in `float32` arithmetic.  Every value that
arises there is a dyadic rational `n / 2^k`, so binary32 values and the
correctly rounded results of their differences and products are modelled
exactly by integer arithmetic on the pair `(n, k)`: `roundF32` rounds such
a value to the nearest binary32 value (round to nearest, ties to even,
subnormal granularity 2⁻¹⁴⁹) and returns it in the canonical form with a
24-bit significand.  Overflow to infinity is not modelled; every value
reached in this program is far below the binary32 overflow threshold. -/

/-- A dyadic rational `n / 2 ^ k`. -/
structure Dy where
  n : ℤ
  k : ℕ
  deriving DecidableEq

/-- The rational value of a dyadic number. -/
def Dy.toQ (x : Dy) : ℚ := (x.n : ℚ) / 2 ^ x.k

/-- Number of binary digits of `m` (`0` for `0`), by fuel recursion; the
fuel `400` is ample for every number arising in this development. -/
def bitsAux : Nat → Nat → Nat
  | 0, _ => 0
  | fuel + 1, m => if m = 0 then 0 else bitsAux fuel (m / 2) + 1

/-- Number of binary digits of `m`, so `2 ^ (bits m - 1) ≤ m < 2 ^ bits m`
for `m ≠ 0`. -/
def bits (m : Nat) : Nat := bitsAux 400 m

/-- Round the dyadic value `x.n / 2 ^ x.k` to the nearest binary32 value
(round to nearest, ties to even), returned in canonical form: zero is
`⟨0, 0⟩`, and otherwise the significand is normalized so that the result
is a fixed point of `roundF32`. -/
def roundF32 (x : Dy) : Dy :=
  if x.n = 0 then ⟨0, 0⟩
  else
    let a := x.n.natAbs
    let ilog : ℤ := (bits a : ℤ) - 1 - (x.k : ℤ)
    let scale : ℤ := max (ilog - 23) (-149)
    let sh : ℤ := scale + (x.k : ℤ)
    let m : ℕ :=
      if sh ≤ 0 then a * 2 ^ (-sh).toNat
      else
        let q := a / 2 ^ sh.toNat
        let r := a % 2 ^ sh.toNat
        let half := 2 ^ (sh.toNat - 1)
        q + (if half < r ∨ (r = half ∧ q % 2 = 1) then 1 else 0)
    let sgn : ℤ := if x.n < 0 then -1 else 1
    if 0 ≤ scale then ⟨sgn * m * 2 ^ scale.toNat, 0⟩ else ⟨sgn * m, (-scale).toNat⟩

/-- Go `int(v)`: truncation toward zero. -/
def Dy.truncI (x : Dy) : ℤ :=
  if x.n < 0 then -(x.n.natAbs / 2 ^ x.k : ℕ) else (x.n.natAbs / 2 ^ x.k : ℕ)

/-- `⌊x⌋` of a dyadic value, as an integer. -/
def Dy.floorI (x : Dy) : ℤ := Int.fdiv x.n (2 ^ x.k)

/-- The source's `abs` helper on a binary32 value. -/
def dyAbs (x : Dy) : Dy := ⟨|x.n|, x.k⟩

/-- The source's `floor` helper: `float32(math.Floor(float64(v)))`.
`math.Floor` is exact on `float64`, and the final conversion rounds to
binary32. -/
def floorf (x : Dy) : Dy := roundF32 ⟨x.floorI, 0⟩

/-- A single binary32 subtraction, correctly rounded. -/
def f32sub (x y : Dy) : Dy :=
  let K := max x.k y.k
  roundF32 ⟨x.n * 2 ^ (K - x.k) - y.n * 2 ^ (K - y.k), K⟩

/-- A single binary32 multiplication, correctly rounded. -/
def f32mul (x y : Dy) : Dy := roundF32 ⟨x.n * y.n, x.k + y.k⟩

/-- The four printed digit groups of the coordinate formatter:
degrees, minutes, seconds, milliseconds-of-arc-second. -/
structure Digits where
  deg : ℤ
  minu : ℤ
  sec : ℤ
  msec : ℤ
  deriving DecidableEq

/-- The digit groups produced by the `format` closure inside
`Point2LL.MarshalJSON` (source lines 107-120), with each `v -= floor(v)`
and `v *= c` step performed in binary32 arithmetic as in the source
(the constants `60` and `1000` are exactly representable). -/
def formatDigits (v : Dy) : Digits :=
  let d := v.truncI
  let v1 := f32mul (f32sub v (floorf v)) ⟨60, 0⟩
  let m := v1.truncI
  let v2 := f32mul (f32sub v1 (floorf v1)) ⟨60, 0⟩
  let s := v2.truncI
  let v3 := f32mul (f32sub v2 (floorf v2)) ⟨1000, 0⟩
  ⟨d, m, s, v3.truncI⟩

/-- Reading the printed digit groups back as
degrees + minutes/60 + seconds/3600 + fraction/3600000. -/
def parseBack (g : Digits) : ℚ :=
  (g.deg : ℚ) + (g.minu : ℚ) / 60 + (g.sec : ℚ) / 3600 + (g.msec : ℚ) / 3600000

/-- The value reconstructed from the emitted string for a signed binary32
degree value `d`: the hemisphere letter carries the sign (positive → N/E,
otherwise → S/W) and the digit groups encode `|d|`. -/
def signedParse (d : Dy) : ℚ :=
  (if 0 < d.toQ then 1 else -1) * parseBack (formatDigits (dyAbs d))

/-- Claim C1 as stated: every binary32 degree value in `[-180, 180]`
round-trips through the codec to within one millisecond-of-arc-second,
with truncation only (the reconstructed magnitude never exceeds `|d|`). -/
def c1Statement : Prop :=
  ∀ d : Dy, roundF32 d = d → -180 ≤ d.toQ → d.toQ ≤ 180 →
    |signedParse d| ≤ |d.toQ| ∧ |d.toQ - signedParse d| ≤ 1 / 3600000

/-! ### The idealized exact-arithmetic codec

A second codec definition following the spec's words ("repeated integer
part extraction with times-60, times-60, times-1000 stages, each
truncated"), with the stages computed in exact rational arithmetic
instead of binary32. -/

/-- The staged digit extraction in exact rational arithmetic. -/
def formatDigitsExact (v : ℚ) : Digits :=
  let v1 := (v - ⌊v⌋) * 60
  let v2 := (v1 - ⌊v1⌋) * 60
  let v3 := (v2 - ⌊v2⌋) * 1000
  ⟨⌊v⌋, ⌊v1⌋, ⌊v2⌋, ⌊v3⌋⟩

/-- Signed reconstruction for the exact-arithmetic codec. -/
def signedParseExact (d : ℚ) : ℚ :=
  (if 0 < d then 1 else -1) * parseBack (formatDigitsExact |d|)

/-! ## JSON values and the `encoding/json` decoding model

Geometry and configuration documents are modelled as JSON value trees.
Decoding into the source's Go struct types mirrors `encoding/json`:
an object key is matched against the struct's json tags, unknown keys are
ignored, `null` leaves the current value in place, a JSON array decodes
into a fixed-size array by position (extra elements discarded, missing
ones left zero), and a type mismatch records the first error while
decoding continues.  The numeric payload of a decoded number is carried
exactly; narrowing it to binary32 never changes the structure of the
result and no claim inspects stored coordinate values. -/

/-- A JSON value. -/
inductive JSONValue where
  | null
  | bool (b : Bool)
  | num (q : ℚ)
  | str (s : String)
  | arr (elems : List JSONValue)
  | obj (fields : List (String × JSONValue))

/-- A byte-level JSON document: either syntactically malformed (carrying
the message the decoder reports for it) or a parsed value. -/
inductive JSONDoc where
  | malformed (msg : String)
  | value (v : JSONValue)

/-- Outcome of a Go `encoding/json` decode: the (possibly partially
populated) result together with the first saved error, if any. -/
abbrev Dec (α : Type) := α × Option String

/-- Keep the first of two optional errors, as Go's decoder does. -/
def firstErr : Option String → Option String → Option String
  | some e, _ => some e
  | none, e => e

/-- The coordinate payload of the geometry model; the source's `Point2LL`
is a pair of Go `float32` (longitude, latitude). -/
abbrev Point2LL := ℚ × ℚ

/-- Decode a JSON value into a `float32` field holding `cur`. -/
def decodeF32Into (cur : ℚ) : JSONValue → Dec ℚ
  | .num q => (q, none)
  | .null => (cur, none)
  | _ => (cur, some "cannot unmarshal value into float32")

/-- Decode a JSON value into a `[2]float32` holding `cur`: array elements
decode by position, extra elements are discarded, missing ones are set to
zero; `null` leaves `cur`; anything else is a type error. -/
def decodePointInto (cur : Point2LL) : JSONValue → Dec Point2LL
  | .arr l =>
      let x := match l[0]? with | some v => decodeF32Into cur.1 v | none => ((0 : ℚ), none)
      let y := match l[1]? with | some v => decodeF32Into cur.2 v | none => ((0 : ℚ), none)
      ((x.1, y.1), firstErr x.2 y.2)
  | .null => (cur, none)
  | _ => (cur, some "cannot unmarshal value into [2]float32")

/-- Decode a JSON value into a `[]Point2LL` slice: a JSON array decodes
element-wise into fresh zero values, `null` yields the nil slice, anything
else is a type error. -/
def decodePointList : JSONValue → Dec (List Point2LL)
  | .arr l =>
      let ds := l.map (decodePointInto (0, 0))
      (ds.map Prod.fst, ds.foldl (fun acc d => firstErr acc d.2) none)
  | .null => ([], none)
  | _ => ([], some "cannot unmarshal value into []Point2LL")

/-- `GeoJSONCoordinates.UnmarshalJSON` (source lines 52-61): reset the
slice, attempt to decode a flat point list, keep the result only when
that decode reported no error, and never report an error itself. -/
def unmarshalCoordinates (j : JSONValue) : Dec (List Point2LL) :=
  match decodePointList j with
  | (c, none) => (c, none)
  | (_, some _) => ([], none)

/-- Decode a JSON value into a string field holding `cur`. -/
def decodeStringInto (cur : String) : JSONValue → Dec String
  | .str s => (s, none)
  | .null => (cur, none)
  | _ => (cur, some "cannot unmarshal value into string")

/-- Decode a JSON value into an int field holding `cur`; fractional
numbers are a type error. -/
def decodeIntInto (cur : ℤ) : JSONValue → Dec ℤ
  | .num q => if q.den = 1 then (q.num, none) else (cur, some "cannot unmarshal number into int")
  | .null => (cur, none)
  | _ => (cur, some "cannot unmarshal value into int")

/-- The inline geometry struct of `GeoJSONFeature` (source lines 41-44). -/
structure GeoJSONGeometry where
  type : String
  coordinates : List Point2LL
  deriving DecidableEq

/-- `GeoJSONFeature` (source lines 39-45). -/
structure GeoJSONFeature where
  type : String
  geometry : GeoJSONGeometry
  deriving DecidableEq

/-- `GeoJSON` (source lines 34-37). -/
structure GeoJSON where
  type : String
  features : List GeoJSONFeature
  deriving DecidableEq

/-- The zero value of the geometry struct. -/
def zeroGeometry : GeoJSONGeometry := ⟨"", []⟩

/-- The zero value of `GeoJSONFeature`. -/
def zeroFeature : GeoJSONFeature := ⟨"", zeroGeometry⟩

/-- The zero value of `GeoJSON`. -/
def zeroGeoJSON : GeoJSON := ⟨"", []⟩

/-- Decode one object key into the inline geometry struct: json tags
`type` and `coordinates`; the coordinates field uses the custom
`unmarshalCoordinates` and therefore never contributes an error. -/
def decodeGeometryField (acc : Dec GeoJSONGeometry) (kv : String × JSONValue) :
    Dec GeoJSONGeometry :=
  if kv.1 = "type" then
    let r := decodeStringInto acc.1.type kv.2
    (⟨r.1, acc.1.coordinates⟩, firstErr acc.2 r.2)
  else if kv.1 = "coordinates" then
    let r := unmarshalCoordinates kv.2
    (⟨acc.1.type, r.1⟩, firstErr acc.2 r.2)
  else acc

/-- Decode a JSON value into the inline geometry struct holding `cur`. -/
def decodeGeometryInto (cur : GeoJSONGeometry) : JSONValue → Dec GeoJSONGeometry
  | .obj kvs => kvs.foldl decodeGeometryField (cur, none)
  | .null => (cur, none)
  | _ => (cur, some "cannot unmarshal value into geometry struct")

/-- Decode one object key into a `GeoJSONFeature`: json tags `type` and
`geometry`. -/
def decodeFeatureField (acc : Dec GeoJSONFeature) (kv : String × JSONValue) :
    Dec GeoJSONFeature :=
  if kv.1 = "type" then
    let r := decodeStringInto acc.1.type kv.2
    (⟨r.1, acc.1.geometry⟩, firstErr acc.2 r.2)
  else if kv.1 = "geometry" then
    let r := decodeGeometryInto acc.1.geometry kv.2
    (⟨acc.1.type, r.1⟩, firstErr acc.2 r.2)
  else acc

/-- Decode a JSON value into a `GeoJSONFeature` holding `cur`. -/
def decodeFeatureInto (cur : GeoJSONFeature) : JSONValue → Dec GeoJSONFeature
  | .obj kvs => kvs.foldl decodeFeatureField (cur, none)
  | .null => (cur, none)
  | _ => (cur, some "cannot unmarshal value into GeoJSONFeature")

/-- Decode a JSON value into a `[]GeoJSONFeature` slice. -/
def decodeFeatureList : JSONValue → Dec (List GeoJSONFeature)
  | .arr l =>
      let ds := l.map (decodeFeatureInto zeroFeature)
      (ds.map Prod.fst, ds.foldl (fun acc d => firstErr acc d.2) none)
  | .null => ([], none)
  | _ => ([], some "cannot unmarshal value into []GeoJSONFeature")

/-- Decode one object key into a `GeoJSON`: json tags `type` and
`features`. -/
def decodeGeoJSONField (acc : Dec GeoJSON) (kv : String × JSONValue) : Dec GeoJSON :=
  if kv.1 = "type" then
    let r := decodeStringInto acc.1.type kv.2
    (⟨r.1, acc.1.features⟩, firstErr acc.2 r.2)
  else if kv.1 = "features" then
    let r := decodeFeatureList kv.2
    (⟨acc.1.type, r.1⟩, firstErr acc.2 r.2)
  else acc

/-- Decode a JSON value into a `GeoJSON` holding `cur`. -/
def decodeGeoJSONInto (cur : GeoJSON) : JSONValue → Dec GeoJSON
  | .obj kvs => kvs.foldl decodeGeoJSONField (cur, none)
  | .null => (cur, none)
  | _ => (cur, some "cannot unmarshal value into GeoJSON")

/-- Decoding a whole geometry document, as performed by the wrapper
`UnmarshalJSON` in `main`: a syntactically malformed document leaves the
zero value and reports the rendered diagnostic; otherwise the value is
decoded, possibly with a saved type error. -/
def decodeGeoJSONDoc : JSONDoc → Dec GeoJSON
  | .malformed msg => (zeroGeoJSON, some msg)
  | .value v => decodeGeoJSONInto zeroGeoJSON v

/-! ## Line-segment extraction -/

/-- The inner coordinate loop of `main` (source lines 217-219): for a
point list `c` of length `n`, append the pairs `c[i], c[i+1]` for
`i = 0 … n-2`. -/
def segPairs : List Point2LL → List Point2LL
  | a :: b :: rest => a :: b :: segPairs (b :: rest)
  | _ => []

/-- The feature loop of `main` (source lines 206-220): only features of
kind `Feature` with geometry kind `LineString` contribute, and each
contributes its flattened consecutive pairs. -/
def extractSegments (gj : GeoJSON) : List Point2LL :=
  gj.features.foldl
    (fun lines f =>
      if f.type ≠ "Feature" then lines
      else if f.geometry.type ≠ "LineString" then lines
      else lines ++ segPairs f.geometry.coordinates)
    []

/-! ## Catalog (ARTCC configuration) -/

/-- `VideoMapSpec` (source lines 26-32). -/
structure VideoMapSpec where
  id : String
  name : String
  shortName : String
  category : String
  starsId : ℤ
  deriving DecidableEq

/-- `ARTCC` (source lines 22-24). -/
structure ARTCC where
  videoMaps : List VideoMapSpec
  deriving DecidableEq

/-- `ViceMapSpec` (source lines 65-69). -/
structure ViceMapSpec where
  group : ℤ
  label : String
  name : String
  deriving DecidableEq

/-- The zero value of `VideoMapSpec`. -/
def zeroVideoMapSpec : VideoMapSpec := ⟨"", "", "", "", 0⟩

/-- Decode one object key into a `VideoMapSpec`: json tags `id`, `name`,
`shortName`, `starsBrightnessCategory`, `starsId`. -/
def decodeVideoMapSpecField (acc : Dec VideoMapSpec) (kv : String × JSONValue) :
    Dec VideoMapSpec :=
  if kv.1 = "id" then
    let r := decodeStringInto acc.1.id kv.2
    ({ acc.1 with id := r.1 }, firstErr acc.2 r.2)
  else if kv.1 = "name" then
    let r := decodeStringInto acc.1.name kv.2
    ({ acc.1 with name := r.1 }, firstErr acc.2 r.2)
  else if kv.1 = "shortName" then
    let r := decodeStringInto acc.1.shortName kv.2
    ({ acc.1 with shortName := r.1 }, firstErr acc.2 r.2)
  else if kv.1 = "starsBrightnessCategory" then
    let r := decodeStringInto acc.1.category kv.2
    ({ acc.1 with category := r.1 }, firstErr acc.2 r.2)
  else if kv.1 = "starsId" then
    let r := decodeIntInto acc.1.starsId kv.2
    ({ acc.1 with starsId := r.1 }, firstErr acc.2 r.2)
  else acc

/-- Decode a JSON value into a `VideoMapSpec` holding `cur`. -/
def decodeVideoMapSpecInto (cur : VideoMapSpec) : JSONValue → Dec VideoMapSpec
  | .obj kvs => kvs.foldl decodeVideoMapSpecField (cur, none)
  | .null => (cur, none)
  | _ => (cur, some "cannot unmarshal value into VideoMapSpec")

/-- Decode a JSON value into a `[]VideoMapSpec` slice. -/
def decodeVideoMapSpecList : JSONValue → Dec (List VideoMapSpec)
  | .arr l =>
      let ds := l.map (decodeVideoMapSpecInto zeroVideoMapSpec)
      (ds.map Prod.fst, ds.foldl (fun acc d => firstErr acc d.2) none)
  | .null => ([], none)
  | _ => ([], some "cannot unmarshal value into []VideoMapSpec")

/-- Decode one object key into an `ARTCC`: json tag `videoMaps`. -/
def decodeARTCCField (acc : Dec ARTCC) (kv : String × JSONValue) : Dec ARTCC :=
  if kv.1 = "videoMaps" then
    let r := decodeVideoMapSpecList kv.2
    (⟨r.1⟩, firstErr acc.2 r.2)
  else acc

/-- Decode a JSON value into an `ARTCC`. -/
def decodeARTCCInto (cur : ARTCC) : JSONValue → Dec ARTCC
  | .obj kvs => kvs.foldl decodeARTCCField (cur, none)
  | .null => (cur, none)
  | _ => (cur, some "cannot unmarshal value into ARTCC")

/-- Decoding the whole configuration document (source lines 154-156);
`main` treats any reported error as fatal. -/
def decodeARTCCDoc : JSONDoc → Dec ARTCC
  | .malformed msg => (⟨[]⟩, some msg)
  | .value v => decodeARTCCInto ⟨[]⟩ v

/-! ## Association maps (Go map semantics) -/

/-- Insertion into a Go map, modelled on an association list: an existing
key is overwritten in place, a new key is appended. -/
def alistInsert {α : Type} (k : String) (v : α) : List (String × α) → List (String × α)
  | [] => [(k, v)]
  | (k', v') :: rest => if k' = k then (k, v) :: rest else (k', v') :: alistInsert k v rest

/-- Go map lookup on the association-list model. -/
def alookup {α : Type} (k : String) : List (String × α) → Option α
  | [] => none
  | (k', v) :: rest => if k' = k then some v else alookup k rest

/-- Number of entries stored under a key. -/
def countKey {α : Type} (k : String) : List (String × α) → ℕ
  | [] => 0
  | (k', _) :: rest => (if k' = k then 1 else 0) + countKey k rest

/-- The catalog loop of `main` (source lines 159-172), mapSpecs part:
one `ViceMapSpec` per catalog entry in document order, group `0` exactly
for brightness category `A` and `1` otherwise. -/
def buildMapSpecs (maps : List VideoMapSpec) : List ViceMapSpec :=
  maps.map fun m => ⟨if m.category = "A" then 0 else 1, m.shortName, m.name⟩

/-- The catalog loop of `main` (source lines 159-172), `idToName` part:
`idToName[m.Id] = m.Name` in document order, later entries overwriting. -/
def buildIdToName (maps : List VideoMapSpec) : List (String × String) :=
  maps.foldl (fun acc m => alistInsert m.id m.name acc) []

/-! ## Path utilities (Go `path/filepath` and `strings`) -/

/-- Scan a reversed path for its extension: stop without an extension at a
separator or the string's start, and return from the last dot on. -/
def extFromRev : List Char → List Char → List Char
  | [], _ => []
  | c :: rest, acc =>
      if c = '/' then [] else if c = '.' then c :: acc else extFromRev rest (c :: acc)

/-- Go `filepath.Ext`: the suffix of the final path element from its last
dot, empty when there is none. -/
def filepathExt (s : String) : String := ⟨extFromRev s.data.reverse []⟩

/-- Go `filepath.Base` for slash-separated paths: strip trailing slashes
and return the last element (`"."` for the empty path, `"/"` for a path
of only slashes). -/
def filepathBase (s : String) : String :=
  if s.data = [] then "."
  else
    let r := s.data.reverse.dropWhile (fun c => c = '/')
    if r = [] then "/" else ⟨(r.takeWhile (fun c => c ≠ '/')).reverse⟩

/-- Go `strings.CutSuffix`, first component: the string with the suffix
removed when present, the string itself otherwise. -/
def cutSuffix (s sfx : String) : String :=
  if sfx.data.isSuffixOf s.data then ⟨s.data.take (s.data.length - sfx.data.length)⟩ else s

/-- Substring containment on character lists: `sub` occurs contiguously. -/
def listContains (sub : List Char) : List Char → Bool
  | [] => sub.isEmpty
  | c :: rest => sub.isPrefixOf (c :: rest) || listContains sub rest

/-- Go `strings.Contains`. -/
def strContains (s sub : String) : Bool := listContains sub.data s.data

/-! ## The `main` pipeline -/

/-- One regular file presented to the walk callback: its slash-separated
path and the JSON document its bytes parse to. -/
structure GeoFile where
  path : String
  doc : JSONDoc

/-- Mutable state of the walk: the `videoMaps` aggregate, the decode
warnings printed to standard output, and the duplicate-definition
messages printed to standard error. -/
structure RunState where
  videoMaps : List (String × List Point2LL)
  warnings : List String
  dupWarnings : List String

/-- The tail of the walk callback once a file has passed the filters and
resolved to a display name (source lines 197-229): record a decode
warning if any, extract the segments, warn on a duplicate display name,
and store the lines under the name (last write wins). -/
def storeMap (name : String) (d : Dec GeoJSON) (path : String) (st : RunState) : RunState :=
  let st1 : RunState :=
    match d.2 with
    | some e => { st with warnings := st.warnings ++ [path ++ ": warning: " ++ e] }
    | none => st
  let lines := extractSegments d.1
  let st2 : RunState :=
    if (alookup name st1.videoMaps).isSome then
      { st1 with dupWarnings := st1.dupWarnings ++ [name ++ ": multiple definitions"] }
    else st1
  { st2 with videoMaps := alistInsert name lines st2.videoMaps }

/-- The walk callback of `main` (source lines 177-230) for one regular
file: extension filter, facility-code substring filter, catalog lookup,
then decode-and-store. -/
def processFile (base : String) (idToName : List (String × String))
    (st : RunState) (f : GeoFile) : RunState :=
  if filepathExt f.path ≠ ".geojson" then st
  else if ¬ strContains f.path base then st
  else
    match alookup (cutSuffix (filepathBase f.path) ".geojson") idToName with
    | none => st
    | some name => storeMap name (decodeGeoJSONDoc f.doc) f.path st

/-- The walk callback with the facility-code substring filter removed
(the program variant claim C10 compares against). -/
def processFileNoCheck (_base : String) (idToName : List (String × String))
    (st : RunState) (f : GeoFile) : RunState :=
  if filepathExt f.path ≠ ".geojson" then st
  else
    match alookup (cutSuffix (filepathBase f.path) ".geojson") idToName with
    | none => st
    | some name => storeMap name (decodeGeoJSONDoc f.doc) f.path st

/-- The display name a file resolves to, when it passes all three
filters of the walk callback. -/
def resolvedName (base : String) (idToName : List (String × String))
    (f : GeoFile) : Option String :=
  if filepathExt f.path ≠ ".geojson" then none
  else if ¬ strContains f.path base then none
  else alookup (cutSuffix (filepathBase f.path) ".geojson") idToName

/-- Content of one written output file. -/
inductive OutputContent where
  | vmaps (m : List (String × List Point2LL))
  | info (l : List ViceMapSpec)

/-- Observable outcome of a run: the exit code, the output files written
in order, and the warnings printed. -/
structure RunResult where
  exitCode : ℕ
  written : List (String × OutputContent)
  warnings : List String
  dupWarnings : List String

/-- The whole `main` run (source lines 143-236) for a facility code, a
configuration document, and the regular files presented by the walk of
`VideoMaps/<base>` in walk order.  External I/O (reading files, the walk,
the final writes) is assumed to succeed; a failed read or write aborts
the run and is outside this model. -/
def mainModel (base : String) (config : JSONDoc) (files : List GeoFile) : RunResult :=
  match decodeARTCCDoc config with
  | (_, some _) => { exitCode := 1, written := [], warnings := [], dupWarnings := [] }
  | (artcc, none) =>
    let mapSpecs := buildMapSpecs artcc.videoMaps
    let idToName := buildIdToName artcc.videoMaps
    let final := files.foldl (processFile base idToName) ⟨[], [], []⟩
    { exitCode := 0,
      written := [(base ++ "-videomaps.json", .vmaps final.videoMaps),
                  (base ++ ".info", .info mapSpecs)],
      warnings := final.warnings,
      dupWarnings := final.dupWarnings }

/-- The run with the facility-code substring filter removed. -/
def mainModelNoCheck (base : String) (config : JSONDoc) (files : List GeoFile) : RunResult :=
  match decodeARTCCDoc config with
  | (_, some _) => { exitCode := 1, written := [], warnings := [], dupWarnings := [] }
  | (artcc, none) =>
    let mapSpecs := buildMapSpecs artcc.videoMaps
    let idToName := buildIdToName artcc.videoMaps
    let final := files.foldl (processFileNoCheck base idToName) ⟨[], [], []⟩
    { exitCode := 0,
      written := [(base ++ "-videomaps.json", .vmaps final.videoMaps),
                  (base ++ ".info", .info mapSpecs)],
      warnings := final.warnings,
      dupWarnings := final.dupWarnings }

/-- The `.info` file content of a run, if one was written. -/
def infoOut (r : RunResult) : Option (List ViceMapSpec) :=
  r.written.foldr
    (fun p acc => match p.2 with | .info l => some l | _ => acc) none

/-- The videomaps file content of a run, if one was written. -/
def vmapsOut (r : RunResult) : Option (List (String × List Point2LL)) :=
  r.written.foldr
    (fun p acc => match p.2 with | .vmaps m => some m | _ => acc) none

/-! ## The error-offset diagnostic -/

/-- The loop of the `decodeOffset` closure (source lines 246-257): scan
up to `fuel` bytes, counting lines and the character position within the
current line. -/
def decodeOffsetAux : List ℕ → ℕ → ℕ × ℕ → ℕ × ℕ
  | _, 0, lc => lc
  | [], _ + 1, lc => lc
  | byte :: rest, fuel + 1, lc =>
      if byte = 10 then decodeOffsetAux rest fuel (lc.1 + 1, 1)
      else decodeOffsetAux rest fuel (lc.1, lc.2 + 1)

/-- The `decodeOffset` closure of `UnmarshalJSON` (source lines 246-257):
line and character of a byte offset into the document, both 1-based; the
scan stops at the offset or at the end of the bytes, whichever is first
(a nonpositive offset scans nothing). -/
def decodeOffset (b : List ℕ) (offset : ℤ) : ℕ × ℕ :=
  decodeOffsetAux b offset.toNat (1, 1)

/-- The rendered diagnostic of `UnmarshalJSON` for a syntax error at a
byte offset (source lines 260-262). -/
def offsetDiagnostic (b : List ℕ) (offset : ℤ) (cause : String) : String :=
  "Error at line " ++ toString (decodeOffset b offset).1 ++
    ", character " ++ toString (decodeOffset b offset).2 ++ ": " ++ cause

/-- Whether a file passes the walk filters and resolves to `name`. -/
def resolvesTo (base : String) (idToName : List (String × String)) (name : String)
    (f : GeoFile) : Bool :=
  resolvedName base idToName f = some name

/-- A geometry document holding one Polygon feature and one Point
feature, and no LineString. -/
def polyPointDoc : JSONValue :=
  .obj [("type", .str "FeatureCollection"), ("features", .arr [
    .obj [("type", .str "Feature"), ("geometry", .obj [("type", .str "Polygon"),
      ("coordinates", .arr [.arr [.arr [.num 0, .num 0], .arr [.num 1, .num 0],
        .arr [.num 0, .num 1]]])])],
    .obj [("type", .str "Feature"), ("geometry", .obj [("type", .str "Point"),
      ("coordinates", .arr [.num 5, .num 6])])]])]

/-- The struct `polyPointDoc` decodes to: the mismatching coordinate
shapes are silently dropped. -/
def polyPointGeo : GeoJSON :=
  ⟨"FeatureCollection", [⟨"Feature", ⟨"Polygon", []⟩⟩, ⟨"Feature", ⟨"Point", []⟩⟩]⟩

/-- A catalog document with two entries whose display names collide. -/
def wConfig : JSONDoc := .value (.obj [("videoMaps", .arr [
  .obj [("id", .str "A1"), ("name", .str "N"), ("shortName", .str "n1"),
        ("starsBrightnessCategory", .str "A")],
  .obj [("id", .str "A2"), ("name", .str "N"), ("shortName", .str "n2"),
        ("starsBrightnessCategory", .str "B")]])])

/-- A well-formed geometry document with one three-point LineString. -/
def wLineDoc : JSONValue :=
  .obj [("type", .str "FeatureCollection"), ("features", .arr [
    .obj [("type", .str "Feature"), ("geometry", .obj [("type", .str "LineString"),
      ("coordinates", .arr [.arr [.num 1, .num 2], .arr [.num 3, .num 4],
        .arr [.num 5, .num 6]])])]])]

/-- A geometry file for catalog id `A1`. -/
def wFile1 : GeoFile := ⟨"VideoMaps/ZNY/A1.geojson", .value wLineDoc⟩

/-- A geometry file for catalog id `A2` whose bytes are not valid JSON. -/
def wFile2 : GeoFile := ⟨"VideoMaps/ZNY/A2.geojson", .malformed "unexpected end of JSON input"⟩

/-- A syntactically malformed configuration document. -/
def wBadConfig : JSONDoc := .malformed "invalid character at offset 3"

/-! # Theorems -/

/-! ## Association-map lemmas -/

theorem alookup_alistInsert_self {α : Type} (k : String) (v : α) (l : List (String × α)) :
    alookup k (alistInsert k v l) = some v := by
  induction l with
  | nil => simp [alistInsert, alookup]
  | cons p rest ih =>
      obtain ⟨k0, v0⟩ := p
      by_cases h : k0 = k
      · simp [alistInsert, h, alookup]
      · simp [alistInsert, h, alookup, ih]

theorem alookup_alistInsert_ne {α : Type} {k k' : String} (hne : k' ≠ k) (v : α)
    (l : List (String × α)) : alookup k' (alistInsert k v l) = alookup k' l := by
  induction l with
  | nil => simp [alistInsert, alookup, Ne.symm hne]
  | cons p rest ih =>
      obtain ⟨k0, v0⟩ := p
      by_cases h : k0 = k
      · subst h
        simp [alistInsert, alookup, Ne.symm hne]
      · by_cases h2 : k0 = k'
        · simp [alistInsert, alookup, h, h2, hne]
        · simp [alistInsert, alookup, h, h2, ih]

theorem countKey_alistInsert_self {α : Type} (k : String) (v : α) (l : List (String × α)) :
    countKey k (alistInsert k v l) =
      if countKey k l = 0 then 1 else countKey k l := by
  induction l with
  | nil => simp [alistInsert, countKey]
  | cons p rest ih =>
      obtain ⟨k0, v0⟩ := p
      by_cases h : k0 = k
      · subst h
        simp [alistInsert, countKey]
      · simp only [alistInsert, if_neg h, countKey, if_neg h, ih]
        split_ifs <;> omega

theorem countKey_alistInsert_ne {α : Type} {k k' : String} (hne : k' ≠ k) (v : α)
    (l : List (String × α)) : countKey k' (alistInsert k v l) = countKey k' l := by
  induction l with
  | nil => simp [alistInsert, countKey, Ne.symm hne]
  | cons p rest ih =>
      obtain ⟨k0, v0⟩ := p
      by_cases h : k0 = k
      · subst h
        simp [alistInsert, countKey, Ne.symm hne]
      · simp [alistInsert, countKey, h, ih]

theorem countKey_pos_of_alookup {α : Type} {k : String} {l : List (String × α)}
    (h : (alookup k l).isSome) : 1 ≤ countKey k l := by
  induction l with
  | nil => simp [alookup] at h
  | cons p rest ih =>
      obtain ⟨k0, v0⟩ := p
      by_cases hk : k0 = k
      · simp [countKey, hk]
      · simp only [alookup, if_neg hk] at h
        have := ih h
        simp only [countKey, if_neg hk]
        omega

theorem mem_alistInsert {α : Type} {p : String × α} {k : String} {v : α}
    {l : List (String × α)} (h : p ∈ alistInsert k v l) : p = (k, v) ∨ p ∈ l := by
  induction l with
  | nil => simpa [alistInsert] using h
  | cons q rest ih =>
      obtain ⟨k0, v0⟩ := q
      by_cases hk : k0 = k
      · subst hk
        rw [show alistInsert k0 v ((k0, v0) :: rest) = (k0, v) :: rest from by
          simp [alistInsert]] at h
        rcases List.mem_cons.mp h with h1 | h1
        · exact Or.inl h1
        · exact Or.inr (List.mem_cons_of_mem _ h1)
      · rw [show alistInsert k v ((k0, v0) :: rest) = (k0, v0) :: alistInsert k v rest from by
          simp [alistInsert, hk]] at h
        rcases List.mem_cons.mp h with h1 | h1
        · exact Or.inr (h1 ▸ List.mem_cons_self _ _)
        · rcases ih h1 with h2 | h2
          · exact Or.inl h2
          · exact Or.inr (List.mem_cons_of_mem _ h2)

/-! ## Segment-extraction lemmas -/

theorem segPairs_length (c : List Point2LL) : (segPairs c).length = 2 * (c.length - 1) := by
  induction c with
  | nil => simp [segPairs]
  | cons a t ih =>
      cases t with
      | nil => simp [segPairs]
      | cons b rest =>
          rw [show segPairs (a :: b :: rest) = a :: b :: segPairs (b :: rest) from rfl]
          simp only [List.length_cons]
          rw [ih]
          simp only [List.length_cons]
          omega

theorem segPairs_get (ps : List Point2LL) (i : ℕ) (h : i + 1 < ps.length) :
    (segPairs ps)[2 * i]? = ps[i]? ∧ (segPairs ps)[2 * i + 1]? = ps[i + 1]? := by
  induction ps generalizing i with
  | nil => simp at h
  | cons a t ih =>
      cases t with
      | nil => simp at h
      | cons b rest =>
          cases i with
          | zero => simp [segPairs]
          | succ j =>
              have h' : j + 1 < (b :: rest).length := by
                simp only [List.length_cons] at h ⊢
                omega
              have e1 : 2 * (j + 1) = 2 * j + 1 + 1 := by ring
              have e2 : 2 * (j + 1) + 1 = 2 * j + 1 + 1 + 1 := by ring
              have hseg : segPairs (a :: b :: rest) = a :: b :: segPairs (b :: rest) := rfl
              constructor
              · rw [hseg, e1, List.getElem?_cons_succ, List.getElem?_cons_succ,
                  List.getElem?_cons_succ]
                exact (ih j h').1
              · rw [hseg, e2, List.getElem?_cons_succ, List.getElem?_cons_succ,
                  List.getElem?_cons_succ]
                exact (ih j h').2

theorem extract_fold_even (feats : List GeoJSONFeature) (acc : List Point2LL)
    (hacc : Even acc.length) :
    Even ((feats.foldl
      (fun lines f =>
        if f.type ≠ "Feature" then lines
        else if f.geometry.type ≠ "LineString" then lines
        else lines ++ segPairs f.geometry.coordinates) acc).length) := by
  induction feats generalizing acc with
  | nil => simpa using hacc
  | cons f rest ih =>
      simp only [List.foldl_cons]
      apply ih
      split
      · exact hacc
      · split
        · exact hacc
        · rw [List.length_append, segPairs_length]
          obtain ⟨m, hm⟩ := hacc
          exact ⟨m + (f.geometry.coordinates.length - 1), by omega⟩

theorem extractSegments_even (gj : GeoJSON) : Even (extractSegments gj).length :=
  extract_fold_even gj.features [] (by simp)

theorem extractSegments_single (t : String) (c : List Point2LL) :
    extractSegments ⟨t, [⟨"Feature", ⟨"LineString", c⟩⟩]⟩ = segPairs c := rfl

/-! ## Claim C2 -/

/-- C2: a geometry document with a single `Feature` of geometry kind
`LineString` and point list `c` extracts to exactly the flattened
consecutive pairs: `2 * (n - 1)` points for `n ≥ 2` forming the pairs
`(c[i], c[i+1])` in order, and zero points for `n < 2`. -/
theorem c2_linestring_pairs (t : String) (ps : List Point2LL) :
    extractSegments ⟨t, [⟨"Feature", ⟨"LineString", ps⟩⟩]⟩ = segPairs ps ∧
    (2 ≤ ps.length → (segPairs ps).length = 2 * (ps.length - 1)) ∧
    (ps.length < 2 → segPairs ps = []) ∧
    (∀ i, i + 1 < ps.length →
      (segPairs ps)[2 * i]? = ps[i]? ∧ (segPairs ps)[2 * i + 1]? = ps[i + 1]?) := by
  refine ⟨extractSegments_single t ps, fun _ => segPairs_length ps, ?_, segPairs_get ps⟩
  intro hlen
  match ps, hlen with
  | [], _ => rfl
  | [a], _ => rfl

/-- C2 witness: the theorem applied to a concrete three-point line. -/
theorem c2_linestring_pairs_witness :
    (segPairs [((1 : ℚ), (2 : ℚ)), ((3 : ℚ), (4 : ℚ)), ((5 : ℚ), (6 : ℚ))]).length =
      2 * (3 - 1) :=
  (c2_linestring_pairs "FeatureCollection"
    [((1 : ℚ), (2 : ℚ)), ((3 : ℚ), (4 : ℚ)), ((5 : ℚ), (6 : ℚ))]).2.1 (by decide)

/-! ## Claim C4 -/

/-- C4: when the configuration document does not decode, the run exits
with a nonzero status and no output file has been written. -/
theorem c4_bad_config_fatal (base : String) (config : JSONDoc) (files : List GeoFile)
    (a : ARTCC) (e : String) (hdec : decodeARTCCDoc config = (a, some e)) :
    (mainModel base config files).exitCode ≠ 0 ∧
      (mainModel base config files).written = [] := by
  unfold mainModel
  rw [hdec]
  exact ⟨one_ne_zero, rfl⟩

/-- C4 witness: a malformed configuration document aborts a concrete run
before writing anything. -/
theorem c4_bad_config_fatal_witness :
    (mainModel "ZNY" wBadConfig [wFile1]).exitCode ≠ 0 ∧
      (mainModel "ZNY" wBadConfig [wFile1]).written = [] :=
  c4_bad_config_fatal "ZNY" wBadConfig [wFile1] ⟨[]⟩
    "invalid character at offset 3" (by decide)

/-! ## Claim C5 -/

/-- C5: coordinate decoding never fails the parse: for every JSON value
the custom coordinates decoder reports no error, a structural mismatch
yields the empty sequence, and a document holding only Polygon and Point
features decodes without error and extracts to the empty result. -/
theorem c5_coordinates_never_fail (j : JSONValue) :
    (unmarshalCoordinates j).2 = none ∧
    ((decodePointList j).2 ≠ none → (unmarshalCoordinates j).1 = []) ∧
    decodeGeoJSONDoc (.value polyPointDoc) = (polyPointGeo, none) ∧
    extractSegments polyPointGeo = [] := by
  refine ⟨?_, ?_, by decide, by decide⟩
  · unfold unmarshalCoordinates
    cases h : decodePointList j with
    | mk cs e => cases e <;> simp
  · intro hne
    unfold unmarshalCoordinates
    cases h : decodePointList j with
    | mk cs e =>
        cases e with
        | none => rw [h] at hne; simp at hne
        | some e' => simp

/-- C5 witness: a bare number in place of a coordinate list is discarded
without error. -/
theorem c5_coordinates_never_fail_witness :
    (unmarshalCoordinates (.num 3)).1 = [] :=
  (c5_coordinates_never_fail (.num 3)).2.1 (by decide)

/-! ## Claim C9 -/

/-- C9: the `.info` output is determined by the configuration document
alone: it lists one `{group, label, name}` triple per catalog entry in
document order, with group `0` exactly for brightness category `A`, and
is identical across runs with the same configuration and any geometry
inputs. -/
theorem c9_info_depends_only_on_config (base : String) (config : JSONDoc)
    (files1 files2 : List GeoFile) (artcc : ARTCC)
    (hdec : decodeARTCCDoc config = (artcc, none)) :
    infoOut (mainModel base config files1) = some (buildMapSpecs artcc.videoMaps) ∧
    infoOut (mainModel base config files1) = infoOut (mainModel base config files2) ∧
    (buildMapSpecs artcc.videoMaps).length = artcc.videoMaps.length ∧
    ∀ (i : ℕ) (m : VideoMapSpec), artcc.videoMaps[i]? = some m →
      ∃ g : ℤ, (buildMapSpecs artcc.videoMaps)[i]? = some ⟨g, m.shortName, m.name⟩ ∧
        (g = 0 ↔ m.category = "A") := by
  have key : ∀ fs : List GeoFile,
      infoOut (mainModel base config fs) = some (buildMapSpecs artcc.videoMaps) := by
    intro fs
    unfold mainModel
    rw [hdec]
    rfl
  refine ⟨key files1, by rw [key files1, key files2], by simp [buildMapSpecs], ?_⟩
  intro i m hm
  refine ⟨if m.category = "A" then 0 else 1, ?_, ?_⟩
  · simp [buildMapSpecs, List.getElem?_map, hm]
  · by_cases hc : m.category = "A"
    · simp [hc]
    · simp [hc]

/-- C9 witness: the theorem applied to the concrete collision catalog,
with differing geometry inputs. -/
theorem c9_info_depends_only_on_config_witness :
    infoOut (mainModel "ZNY" wConfig [wFile1]) =
      some (buildMapSpecs [⟨"A1", "N", "n1", "A", 0⟩, ⟨"A2", "N", "n2", "B", 0⟩]) ∧
    infoOut (mainModel "ZNY" wConfig [wFile1]) = infoOut (mainModel "ZNY" wConfig []) :=
  have h := c9_info_depends_only_on_config "ZNY" wConfig [wFile1] []
    ⟨[⟨"A1", "N", "n1", "A", 0⟩, ⟨"A2", "N", "n2", "B", 0⟩]⟩ (by decide)
  ⟨h.1, h.2.1⟩

/-- The remainder of the exact staged extraction is the fractional part of
the final stage, scaled to degrees. -/
theorem parseBack_formatDigitsExact (v : ℚ) :
    v - parseBack (formatDigitsExact v) =
      Int.fract (Int.fract (Int.fract (Int.fract v * 60) * 60) * 1000) / 3600000 := by
  simp only [formatDigitsExact, parseBack, Int.fract]
  ring

/-- The exact staged extraction of a nonnegative value reads back to a
nonnegative value. -/
theorem parseBack_formatDigitsExact_nonneg (v : ℚ) (hv : 0 ≤ v) :
    0 ≤ parseBack (formatDigitsExact v) := by
  have h0 : (0 : ℤ) ≤ ⌊v⌋ := Int.floor_nonneg.mpr hv
  have f1 : 0 ≤ v - ⌊v⌋ := by have := Int.floor_le v; linarith
  have h1 : (0 : ℤ) ≤ ⌊(v - ⌊v⌋) * 60⌋ :=
    Int.floor_nonneg.mpr (by nlinarith)
  have f2 : 0 ≤ (v - ⌊v⌋) * 60 - ⌊(v - ⌊v⌋) * 60⌋ := by
    have := Int.floor_le ((v - ⌊v⌋) * 60); linarith
  have h2 : (0 : ℤ) ≤ ⌊((v - ⌊v⌋) * 60 - ⌊(v - ⌊v⌋) * 60⌋) * 60⌋ :=
    Int.floor_nonneg.mpr (by nlinarith)
  have f3 : 0 ≤ ((v - ⌊v⌋) * 60 - ⌊(v - ⌊v⌋) * 60⌋) * 60 -
      ⌊((v - ⌊v⌋) * 60 - ⌊(v - ⌊v⌋) * 60⌋) * 60⌋ := by
    have := Int.floor_le (((v - ⌊v⌋) * 60 - ⌊(v - ⌊v⌋) * 60⌋) * 60); linarith
  have h3 : (0 : ℤ) ≤
      ⌊(((v - ⌊v⌋) * 60 - ⌊(v - ⌊v⌋) * 60⌋) * 60 -
        ⌊((v - ⌊v⌋) * 60 - ⌊(v - ⌊v⌋) * 60⌋) * 60⌋) * 1000⌋ :=
    Int.floor_nonneg.mpr (by nlinarith)
  simp only [formatDigitsExact, parseBack]
  have c0 : (0 : ℚ) ≤ (⌊v⌋ : ℚ) := by exact_mod_cast h0
  have c1 : (0 : ℚ) ≤ ((⌊(v - ⌊v⌋) * 60⌋ : ℤ) : ℚ) := by exact_mod_cast h1
  have c2 : (0 : ℚ) ≤ ((⌊((v - ⌊v⌋) * 60 - ⌊(v - ⌊v⌋) * 60⌋) * 60⌋ : ℤ) : ℚ) := by
    exact_mod_cast h2
  have c3 : (0 : ℚ) ≤
      ((⌊(((v - ⌊v⌋) * 60 - ⌊(v - ⌊v⌋) * 60⌋) * 60 -
        ⌊((v - ⌊v⌋) * 60 - ⌊(v - ⌊v⌋) * 60⌋) * 60⌋) * 1000⌋ : ℤ) : ℚ) := by
    exact_mod_cast h3
  positivity

/-- Exact-arithmetic staged extraction truncates: the read-back value sits
within one millisecond-of-arc-second below the input. -/
theorem exact_roundtrip_core (v : ℚ) :
    0 ≤ v - parseBack (formatDigitsExact v) ∧
      v - parseBack (formatDigitsExact v) < 1 / 3600000 := by
  rw [parseBack_formatDigitsExact]
  constructor
  · have := Int.fract_nonneg (Int.fract (Int.fract (Int.fract v * 60) * 60) * 1000)
    positivity
  · have h := Int.fract_lt_one (Int.fract (Int.fract (Int.fract v * 60) * 60) * 1000)
    linarith

/-! ## Claim C1 -/

/-- C1 (counterexample): the claim as stated is false for the code's
binary32 arithmetic.  The binary32 value `9507089 / 2^25 ≈ 0.283333331`,
the closest `float32` to 17 arc-minutes, formats as exactly
`0°17'00.000''` because the multiplication by 60 rounds up to `17.0`;
the string parses back to `17/60 > d`, so the codec does not truncate
only: the reconstructed magnitude exceeds `|d|`. -/
theorem c1_float32_roundup_counterexample : ¬ c1Statement := by
  intro h
  have h0 := h ⟨9507089, 25⟩ (by decide) (by norm_num [Dy.toQ]) (by norm_num [Dy.toQ])
  have hd : formatDigits (dyAbs ⟨9507089, 25⟩) = ⟨0, 17, 0, 0⟩ := by decide
  have hs : signedParse ⟨9507089, 25⟩ = 17 / 60 := by
    simp only [signedParse, hd]
    rw [if_pos (by norm_num [Dy.toQ] : (0 : ℚ) < Dy.toQ ⟨9507089, 25⟩)]
    norm_num [parseBack]
  have h1 := h0.1
  rw [hs] at h1
  have e1 : |(17 / 60 : ℚ)| = 17 / 60 := by rw [abs_of_pos] ; norm_num
  have e2 : |Dy.toQ ⟨9507089, 25⟩| = 9507089 / 33554432 := by
    rw [show Dy.toQ ⟨9507089, 25⟩ = 9507089 / 33554432 by norm_num [Dy.toQ]]
    rw [abs_of_pos] ; norm_num
  rw [e1, e2] at h1
  norm_num at h1
/-- C1 (amended): with the per-stage binary32 arithmetic replaced by
exact rational arithmetic, the staged truncating codec reconstructs every
degree value to within one millisecond-of-arc-second, truncating the
magnitude and never rounding up. -/
theorem c1_exact_codec_roundtrip (d : ℚ) :
    |signedParseExact d| ≤ |d| ∧ |d - signedParseExact d| < 1 / 3600000 := by
  by_cases hd : 0 < d
  · have habs : |d| = d := abs_of_pos hd
    have hs : signedParseExact d = parseBack (formatDigitsExact d) := by
      simp only [signedParseExact]
      rw [if_pos hd, habs, one_mul]
    have hcore := exact_roundtrip_core d
    have hnn := parseBack_formatDigitsExact_nonneg d hd.le
    rw [hs, habs]
    constructor
    · rw [abs_of_nonneg hnn]; linarith [hcore.1]
    · rw [abs_of_nonneg hcore.1]; exact hcore.2
  · push_neg at hd
    have habs : |d| = -d := abs_of_nonpos hd
    have hs : signedParseExact d = -parseBack (formatDigitsExact (-d)) := by
      simp only [signedParseExact]
      rw [if_neg (not_lt.mpr hd), habs]; ring
    have hcore := exact_roundtrip_core (-d)
    have hnn := parseBack_formatDigitsExact_nonneg (-d) (by linarith)
    rw [hs, habs]
    constructor
    · rw [abs_neg, abs_of_nonneg hnn]; linarith [hcore.1]
    · have e : d - -parseBack (formatDigitsExact (-d)) =
          -(-d - parseBack (formatDigitsExact (-d))) := by ring
      rw [e, abs_neg, abs_of_nonneg hcore.1]
      exact hcore.2

/-! ## Walk-step lemmas -/

theorem storeMap_videoMaps (name : String) (d : Dec GeoJSON) (path : String)
    (st : RunState) :
    (storeMap name d path st).videoMaps =
      alistInsert name (extractSegments d.1) st.videoMaps := by
  obtain ⟨g, e⟩ := d
  cases e <;> unfold storeMap <;> dsimp only <;> split <;> rfl

theorem storeMap_warnings (name : String) (d : Dec GeoJSON) (path : String)
    (st : RunState) :
    (storeMap name d path st).warnings =
      st.warnings ++ (match d.2 with
        | some e => [path ++ ": warning: " ++ e]
        | none => []) := by
  obtain ⟨g, e⟩ := d
  cases e <;> unfold storeMap <;> dsimp only <;> split <;> simp

theorem storeMap_dupWarnings (name : String) (d : Dec GeoJSON) (path : String)
    (st : RunState) :
    (storeMap name d path st).dupWarnings =
      if (alookup name st.videoMaps).isSome then
        st.dupWarnings ++ [name ++ ": multiple definitions"]
      else st.dupWarnings := by
  obtain ⟨g, e⟩ := d
  cases e <;> unfold storeMap <;> dsimp only <;> split <;> simp

theorem processFile_resolved (base : String) (idToName : List (String × String))
    (st : RunState) (f : GeoFile) :
    processFile base idToName st f =
      match resolvedName base idToName f with
      | none => st
      | some name => storeMap name (decodeGeoJSONDoc f.doc) f.path st := by
  unfold processFile resolvedName
  by_cases h1 : filepathExt f.path = ".geojson"
  · by_cases h2 : strContains f.path base
    · simp [h1, h2]
    · simp [h1, h2]
  · simp [h1]

theorem processFile_preserves_isSome (base : String) (idToName : List (String × String))
    (st : RunState) (f : GeoFile) (name : String)
    (h : (alookup name st.videoMaps).isSome) :
    (alookup name (processFile base idToName st f).videoMaps).isSome := by
  rw [processFile_resolved]
  cases resolvedName base idToName f with
  | none => exact h
  | some m =>
      rw [storeMap_videoMaps]
      by_cases hm : m = name
      · subst hm; rw [alookup_alistInsert_self]; rfl
      · rw [alookup_alistInsert_ne (Ne.symm hm)]; exact h

theorem processFile_warnings_mono (base : String) (idToName : List (String × String))
    (st : RunState) (f : GeoFile) {w : String} (h : w ∈ st.warnings) :
    w ∈ (processFile base idToName st f).warnings := by
  rw [processFile_resolved]
  cases resolvedName base idToName f with
  | none => exact h
  | some m => rw [storeMap_warnings]; exact List.mem_append_left _ h

theorem processFile_dup_mono (base : String) (idToName : List (String × String))
    (st : RunState) (f : GeoFile) {w : String} (h : w ∈ st.dupWarnings) :
    w ∈ (processFile base idToName st f).dupWarnings := by
  rw [processFile_resolved]
  cases resolvedName base idToName f with
  | none => exact h
  | some m =>
      rw [storeMap_dupWarnings]
      split
      · exact List.mem_append_left _ h
      · exact h

/-! ## Walk-fold lemmas -/

theorem foldl_warnings_mono (base : String) (idToName : List (String × String))
    (files : List GeoFile) {w : String} :
    ∀ st : RunState, w ∈ st.warnings →
      w ∈ (files.foldl (processFile base idToName) st).warnings := by
  induction files with
  | nil => intro st h; exact h
  | cons f rest ih =>
      intro st h
      simp only [List.foldl_cons]
      exact ih _ (processFile_warnings_mono _ _ _ _ h)

theorem foldl_dup_mono (base : String) (idToName : List (String × String))
    (files : List GeoFile) {w : String} :
    ∀ st : RunState, w ∈ st.dupWarnings →
      w ∈ (files.foldl (processFile base idToName) st).dupWarnings := by
  induction files with
  | nil => intro st h; exact h
  | cons f rest ih =>
      intro st h
      simp only [List.foldl_cons]
      exact ih _ (processFile_dup_mono _ _ _ _ h)

theorem foldl_isSome_mono (base : String) (idToName : List (String × String))
    (files : List GeoFile) (name : String) :
    ∀ st : RunState, (alookup name st.videoMaps).isSome →
      (alookup name (files.foldl (processFile base idToName) st).videoMaps).isSome := by
  induction files with
  | nil => intro st h; exact h
  | cons f rest ih =>
      intro st h
      simp only [List.foldl_cons]
      exact ih _ (processFile_preserves_isSome _ _ _ _ _ h)

theorem foldl_warning_emitted (base : String) (idToName : List (String × String))
    (files : List GeoFile) (f : GeoFile) (name e : String)
    (hres : resolvedName base idToName f = some name)
    (herr : (decodeGeoJSONDoc f.doc).2 = some e) :
    ∀ st : RunState, f ∈ files →
      (f.path ++ ": warning: " ++ e) ∈
        (files.foldl (processFile base idToName) st).warnings := by
  induction files with
  | nil => intro st h; simp at h
  | cons g rest ih =>
      intro st hmem
      simp only [List.foldl_cons]
      rcases List.mem_cons.mp hmem with h | h
      · subst h
        apply foldl_warnings_mono
        rw [processFile_resolved, hres, storeMap_warnings, herr]
        exact List.mem_append_right _ (by simp)
      · exact ih _ h

theorem foldl_presence_of_resolver (base : String) (idToName : List (String × String))
    (files : List GeoFile) (f : GeoFile) (name : String)
    (hres : resolvedName base idToName f = some name) :
    ∀ st : RunState, f ∈ files →
      (alookup name (files.foldl (processFile base idToName) st).videoMaps).isSome := by
  induction files with
  | nil => intro st h; simp at h
  | cons g rest ih =>
      intro st hmem
      simp only [List.foldl_cons]
      rcases List.mem_cons.mp hmem with h | h
      · subst h
        apply foldl_isSome_mono
        rw [processFile_resolved, hres, storeMap_videoMaps, alookup_alistInsert_self]
        rfl
      · exact ih _ h

theorem foldl_no_resolver_lookup (base : String) (idToName : List (String × String))
    (files : List GeoFile) (name : String) :
    ∀ st : RunState, (∀ f ∈ files, resolvedName base idToName f ≠ some name) →
      alookup name (files.foldl (processFile base idToName) st).videoMaps =
        alookup name st.videoMaps := by
  induction files with
  | nil => intro st _; rfl
  | cons g rest ih =>
      intro st hnone
      simp only [List.foldl_cons]
      rw [ih _ (fun f hf => hnone f (List.mem_cons_of_mem _ hf))]
      rw [processFile_resolved]
      cases hr : resolvedName base idToName g with
      | none => rfl
      | some m =>
          rw [storeMap_videoMaps]
          have hm : m ≠ name := by
            intro hEq
            exact hnone g (List.mem_cons_self _ _) (by rw [hr, hEq])
          rw [alookup_alistInsert_ne (Ne.symm hm)]

theorem foldl_last_wins (base : String) (idToName : List (String × String))
    (files : List GeoFile) (name : String) (f : GeoFile) :
    ∀ st : RunState,
      (files.filter (resolvesTo base idToName name)).getLast? = some f →
      alookup name (files.foldl (processFile base idToName) st).videoMaps =
        some (extractSegments (decodeGeoJSONDoc f.doc).1) := by
  induction files with
  | nil => intro st h; simp at h
  | cons g rest ih =>
      intro st hlast
      simp only [List.foldl_cons]
      by_cases hg : resolvesTo base idToName name g = true
      · rw [List.filter_cons_of_pos hg] at hlast
        have hres : resolvedName base idToName g = some name := by
          simpa [resolvesTo] using hg
        cases hrest : rest.filter (resolvesTo base idToName name) with
        | nil =>
            rw [hrest, List.getLast?_singleton] at hlast
            have hf : g = f := Option.some_injective _ hlast
            subst hf
            have hnone : ∀ f' ∈ rest, resolvedName base idToName f' ≠ some name := by
              intro f' hf' hres'
              have hmemf : f' ∈ rest.filter (resolvesTo base idToName name) :=
                List.mem_filter.mpr ⟨hf', by simp [resolvesTo, hres']⟩
              rw [hrest] at hmemf
              simp at hmemf
            rw [foldl_no_resolver_lookup base idToName rest name _ hnone]
            rw [processFile_resolved, hres, storeMap_videoMaps, alookup_alistInsert_self]
        | cons b t =>
            rw [hrest, List.getLast?_cons_cons, ← hrest] at hlast
            exact ih _ hlast
      · rw [List.filter_cons_of_neg hg] at hlast
        exact ih _ hlast

theorem foldl_dup_emitted_of_present (base : String) (idToName : List (String × String))
    (files : List GeoFile) (name : String) :
    ∀ st : RunState, (alookup name st.videoMaps).isSome →
      (∃ f ∈ files, resolvedName base idToName f = some name) →
      (name ++ ": multiple definitions") ∈
        (files.foldl (processFile base idToName) st).dupWarnings := by
  induction files with
  | nil =>
      rintro st _ ⟨f, hf, -⟩
      simp at hf
  | cons g rest ih =>
      rintro st hsome ⟨f, hmem, hres⟩
      simp only [List.foldl_cons]
      rcases List.mem_cons.mp hmem with h | h
      · subst h
        apply foldl_dup_mono
        rw [processFile_resolved, hres, storeMap_dupWarnings, if_pos hsome]
        exact List.mem_append_right _ (by simp)
      · exact ih _ (processFile_preserves_isSome _ _ _ _ _ hsome) ⟨f, h, hres⟩

theorem foldl_dup_of_two (base : String) (idToName : List (String × String))
    (files : List GeoFile) (name : String) :
    ∀ st : RunState,
      2 ≤ (files.filter (resolvesTo base idToName name)).length →
      (name ++ ": multiple definitions") ∈
        (files.foldl (processFile base idToName) st).dupWarnings := by
  induction files with
  | nil => intro st h; simp at h
  | cons g rest ih =>
      intro st h2
      simp only [List.foldl_cons]
      by_cases hg : resolvesTo base idToName name g = true
      · rw [List.filter_cons_of_pos hg] at h2
        simp only [List.length_cons] at h2
        have hne : rest.filter (resolvesTo base idToName name) ≠ [] := by
          intro hnil
          rw [hnil] at h2
          simp at h2
        obtain ⟨f, hf⟩ := List.exists_mem_of_ne_nil _ hne
        have hfr := List.mem_filter.mp hf
        have hres : resolvedName base idToName g = some name := by
          simpa [resolvesTo] using hg
        apply foldl_dup_emitted_of_present base idToName rest name _ ?_
          ⟨f, hfr.1, by simpa [resolvesTo] using hfr.2⟩
        rw [processFile_resolved, hres, storeMap_videoMaps, alookup_alistInsert_self]
        rfl
      · rw [List.filter_cons_of_neg hg] at h2
        exact ih _ h2

theorem processFile_countKey_le (base : String) (idToName : List (String × String))
    (st : RunState) (f : GeoFile)
    (h : ∀ k, countKey k st.videoMaps ≤ 1) :
    ∀ k, countKey k (processFile base idToName st f).videoMaps ≤ 1 := by
  intro k
  rw [processFile_resolved]
  cases resolvedName base idToName f with
  | none => exact h k
  | some m =>
      rw [storeMap_videoMaps]
      by_cases hk : k = m
      · subst hk
        rw [countKey_alistInsert_self]
        split
        · omega
        · exact h k
      · rw [countKey_alistInsert_ne hk]
        exact h k

theorem foldl_countKey_le (base : String) (idToName : List (String × String))
    (files : List GeoFile) :
    ∀ st : RunState, (∀ k, countKey k st.videoMaps ≤ 1) →
      ∀ k, countKey k (files.foldl (processFile base idToName) st).videoMaps ≤ 1 := by
  induction files with
  | nil => intro st h; exact h
  | cons f rest ih =>
      intro st h
      simp only [List.foldl_cons]
      exact ih _ (processFile_countKey_le _ _ _ _ h)

theorem processFile_even (base : String) (idToName : List (String × String))
    (st : RunState) (f : GeoFile)
    (h : ∀ pr ∈ st.videoMaps, Even (pr.2 : List Point2LL).length) :
    ∀ pr ∈ (processFile base idToName st f).videoMaps, Even pr.2.length := by
  intro pr hpr
  rw [processFile_resolved] at hpr
  cases hr : resolvedName base idToName f with
  | none => rw [hr] at hpr; exact h pr hpr
  | some m =>
      rw [hr, storeMap_videoMaps] at hpr
      rcases mem_alistInsert hpr with h1 | h1
      · rw [h1]
        exact extractSegments_even _
      · exact h pr h1

theorem foldl_even (base : String) (idToName : List (String × String))
    (files : List GeoFile) :
    ∀ st : RunState, (∀ pr ∈ st.videoMaps, Even (pr.2 : List Point2LL).length) →
      ∀ pr ∈ (files.foldl (processFile base idToName) st).videoMaps,
        Even pr.2.length := by
  induction files with
  | nil => intro st h; exact h
  | cons f rest ih =>
      intro st h
      simp only [List.foldl_cons]
      exact ih _ (processFile_even _ _ _ _ h)

/-- C1 witness: the amended round-trip theorem at `d = 1/3`. -/
theorem c1_exact_codec_roundtrip_witness :
    |signedParseExact (1 / 3)| ≤ |(1 / 3 : ℚ)| ∧
      |1 / 3 - signedParseExact (1 / 3)| < 1 / 3600000 :=
  c1_exact_codec_roundtrip (1 / 3)

/-! ## Error-offset diagnostic lemmas -/

theorem takeWhile_append_drop (p : ℕ → Bool) (x : ℕ) (hx : p x = false) :
    ∀ u : List ℕ, (u ++ [x]).takeWhile p = u.takeWhile p := by
  intro u
  induction u with
  | nil => simp [List.takeWhile_cons, hx]
  | cons y t ih =>
      by_cases hy : p y
      · simp [List.takeWhile_cons, hy, ih]
      · simp [List.takeWhile_cons, hy]

theorem takeWhile_append_of_bad (p : ℕ → Bool) (v : List ℕ) :
    ∀ u : List ℕ, (∃ y ∈ u, p y = false) → (u ++ v).takeWhile p = u.takeWhile p := by
  intro u
  induction u with
  | nil =>
      rintro ⟨y, hy, -⟩
      simp at hy
  | cons z t ih =>
      rintro ⟨y, hy, hpy⟩
      by_cases hz : p z
      · rcases List.mem_cons.mp hy with h | h
        · subst h
          rw [hz] at hpy
          cases hpy
        · simp [List.takeWhile_cons, hz, ih ⟨y, h, hpy⟩]
      · simp [List.takeWhile_cons, hz]

theorem takeWhile_all_of_no10 :
    ∀ u : List ℕ, u.count 10 = 0 → u.takeWhile (fun c => c != 10) = u := by
  intro u
  induction u with
  | nil => intro _; rfl
  | cons y t ih =>
      intro h
      rw [List.count_cons] at h
      by_cases hy : y = 10
      · subst hy; simp at h
      · have hb : ((y : ℕ) == 10) = false := by simp [hy]
        rw [hb] at h
        simp only [Bool.false_eq_true, if_false] at h
        simp [List.takeWhile_cons, hy, ih (by omega)]

theorem mem_ten_of_count_ne (u : List ℕ) (h : u.count 10 ≠ 0) :
    ∃ y ∈ u, (y != 10) = false := by
  refine ⟨10, ?_, by simp⟩
  by_contra hmem
  exact h (List.count_eq_zero.mpr hmem)

theorem decodeOffsetAux_spec (b : List ℕ) :
    ∀ (fuel line char : ℕ),
      decodeOffsetAux b fuel (line, char) =
        (line + (b.take fuel).count 10,
         if (b.take fuel).count 10 = 0 then char + (b.take fuel).length
         else 1 + ((b.take fuel).reverse.takeWhile (fun c => c != 10)).length) := by
  induction b with
  | nil =>
      intro fuel line char
      cases fuel <;> simp [decodeOffsetAux]
  | cons x rest ih =>
      intro fuel line char
      cases fuel with
      | zero => simp [decodeOffsetAux]
      | succ m =>
          by_cases hx : x = 10
          · subst hx
            rw [show decodeOffsetAux (10 :: rest) (m + 1) (line, char) =
                decodeOffsetAux rest m (line + 1, 1) from by simp [decodeOffsetAux]]
            rw [ih m (line + 1) 1, List.take_succ_cons]
            have hcount : List.count 10 (10 :: rest.take m) =
                List.count 10 (rest.take m) + 1 := by
              simp [List.count_cons]
            rw [hcount]
            rw [if_neg (show ¬(List.count 10 (rest.take m) + 1 = 0) from by omega)]
            have hseg : (10 :: rest.take m).reverse.takeWhile (fun c => c != 10) =
                (rest.take m).reverse.takeWhile (fun c => c != 10) := by
              rw [List.reverse_cons]
              exact takeWhile_append_drop _ 10 (by simp) _
            rw [hseg]
            simp only [Prod.mk.injEq]
            refine ⟨by first | trivial | omega, ?_⟩
            by_cases hc : List.count 10 (rest.take m) = 0
            · rw [if_pos hc, takeWhile_all_of_no10 _ (by rw [List.count_reverse]; exact hc),
                List.length_reverse]
            · rw [if_neg hc]
          · rw [show decodeOffsetAux (x :: rest) (m + 1) (line, char) =
                decodeOffsetAux rest m (line, char + 1) from by simp [decodeOffsetAux, hx]]
            rw [ih m line (char + 1), List.take_succ_cons]
            have hcount : List.count 10 (x :: rest.take m) =
                List.count 10 (rest.take m) := by
              simp [List.count_cons, hx]
            rw [hcount]
            by_cases hc : List.count 10 (rest.take m) = 0
            · rw [if_pos hc, if_pos hc]
              simp only [Prod.mk.injEq, List.length_cons]
              refine ⟨trivial, by omega⟩
            · rw [if_neg hc, if_neg hc]
              have hseg : (x :: rest.take m).reverse.takeWhile (fun c => c != 10) =
                  (rest.take m).reverse.takeWhile (fun c => c != 10) := by
                rw [List.reverse_cons]
                refine takeWhile_append_of_bad _ [x] _ ?_
                obtain ⟨y, hy, hpy⟩ := mem_ten_of_count_ne _ hc
                exact ⟨y, List.mem_reverse.mpr hy, hpy⟩
              rw [hseg]

/-- The diagnostic position: the line is one more than the number of
newline bytes before the offset, and the character is the one-based
position since the last newline, exactly as the spec describes. -/
theorem decodeOffset_spec (b : List ℕ) (off : ℤ) :
    decodeOffset b off =
      (1 + (b.take off.toNat).count 10,
       1 + ((b.take off.toNat).reverse.takeWhile (fun c => c != 10)).length) := by
  unfold decodeOffset
  rw [decodeOffsetAux_spec]
  by_cases hc : (b.take off.toNat).count 10 = 0
  · rw [if_pos hc, takeWhile_all_of_no10 _ (by rw [List.count_reverse]; exact hc),
      List.length_reverse]
  · rw [if_neg hc]

/-! ## Resolution characterization -/

theorem resolvedName_eq_some_iff (base : String) (idToName : List (String × String))
    (f : GeoFile) (name : String) :
    resolvedName base idToName f = some name ↔
      filepathExt f.path = ".geojson" ∧ strContains f.path base = true ∧
        alookup (cutSuffix (filepathBase f.path) ".geojson") idToName = some name := by
  unfold resolvedName
  by_cases h1 : filepathExt f.path = ".geojson"
  · by_cases h2 : strContains f.path base
    · simp [h1, h2]
    · simp [h1, h2]
  · simp [h1]

/-! ## Claim C3 -/

/-- C3: when at least two geometry sources resolve to the same display
name, the run still completes with exit code 0 and writes both output
files, a duplicate-definition warning is recorded, and the aggregate
holds exactly one entry under the name whose content is that of the last
such source processed. -/
theorem c3_duplicate_display_name (base : String) (config : JSONDoc) (files : List GeoFile)
    (artcc : ARTCC) (name : String) (f : GeoFile)
    (hdec : decodeARTCCDoc config = (artcc, none))
    (htwo : 2 ≤ (files.filter
      (resolvesTo base (buildIdToName artcc.videoMaps) name)).length)
    (hlast : (files.filter
      (resolvesTo base (buildIdToName artcc.videoMaps) name)).getLast? = some f) :
    (mainModel base config files).exitCode = 0 ∧
    (mainModel base config files).written.length = 2 ∧
    (name ++ ": multiple definitions") ∈ (mainModel base config files).dupWarnings ∧
    ∃ m, vmapsOut (mainModel base config files) = some m ∧
      countKey name m = 1 ∧
      alookup name m = some (extractSegments (decodeGeoJSONDoc f.doc).1) := by
  have hexit : (mainModel base config files).exitCode = 0 := by
    unfold mainModel; rw [hdec]
  have hwlen : (mainModel base config files).written.length = 2 := by
    unfold mainModel; rw [hdec]; rfl
  have hdup : (mainModel base config files).dupWarnings =
      (files.foldl (processFile base (buildIdToName artcc.videoMaps))
        ⟨[], [], []⟩).dupWarnings := by
    unfold mainModel; rw [hdec]
  have hvm : vmapsOut (mainModel base config files) =
      some (files.foldl (processFile base (buildIdToName artcc.videoMaps))
        ⟨[], [], []⟩).videoMaps := by
    unfold mainModel; rw [hdec]; rfl
  have hlook := foldl_last_wins base (buildIdToName artcc.videoMaps) files name f
    ⟨[], [], []⟩ hlast
  refine ⟨hexit, hwlen, ?_, ?_⟩
  · rw [hdup]
    exact foldl_dup_of_two base (buildIdToName artcc.videoMaps) files name
      ⟨[], [], []⟩ htwo
  · refine ⟨_, hvm, ?_, hlook⟩
    have hle := foldl_countKey_le base (buildIdToName artcc.videoMaps) files
      ⟨[], [], []⟩ (fun k => by simp [countKey]) name
    have hge : 1 ≤ countKey name
        (files.foldl (processFile base (buildIdToName artcc.videoMaps))
          ⟨[], [], []⟩).videoMaps :=
      countKey_pos_of_alookup (by rw [hlook]; rfl)
    omega

/-- C3 witness: the collision catalog with two geometry files for ids
`A1` and `A2`, both displayed as `N`. -/
theorem c3_duplicate_display_name_witness :
    ("N" ++ ": multiple definitions") ∈
      (mainModel "ZNY" wConfig [wFile1, wFile2]).dupWarnings :=
  (c3_duplicate_display_name "ZNY" wConfig [wFile1, wFile2]
    ⟨[⟨"A1", "N", "n1", "A", 0⟩, ⟨"A2", "N", "n2", "B", 0⟩]⟩ "N" wFile2
    (by decide) (by decide) (by rfl)).2.2.1

/-! ## Claim C6 -/

/-- C6 (counterexample): the claim says a geometry document that fails
to decode is skipped; in the code the walk callback continues after the
warning and still stores an entry for the map, so a run over only the
malformed `A2.geojson` leaves the aggregate with an entry `("N", [])`
rather than no entry. -/
theorem c6_not_skipped_counterexample :
    (decodeGeoJSONDoc wFile2.doc).2.isSome = true ∧
    vmapsOut (mainModel "ZNY" wConfig [wFile2]) = some [("N", [])] := by
  constructor
  · decide
  · decide

/-- C6 (amended): a geometry document that fails to decode does not
abort the run: the run completes with both outputs, a warning naming the
file and the cause is recorded, and the diagnostic's line/character pair
is computed from the byte stream as one plus the number of newlines
before the offset and the one-based position since the last newline;
however the document is not skipped — an aggregate entry for the map is
still created from whatever was decoded. -/
theorem c6_warning_and_diagnostic (base : String) (config : JSONDoc) (files : List GeoFile)
    (artcc : ARTCC) (f : GeoFile) (name e : String)
    (hdec : decodeARTCCDoc config = (artcc, none))
    (hmem : f ∈ files)
    (hres : resolvedName base (buildIdToName artcc.videoMaps) f = some name)
    (herr : (decodeGeoJSONDoc f.doc).2 = some e) :
    (mainModel base config files).exitCode = 0 ∧
    (mainModel base config files).written.length = 2 ∧
    (f.path ++ ": warning: " ++ e) ∈ (mainModel base config files).warnings ∧
    (∃ m, vmapsOut (mainModel base config files) = some m ∧ (alookup name m).isSome) ∧
    ∀ (bytes : List ℕ) (off : ℤ),
      decodeOffset bytes off =
        (1 + (bytes.take off.toNat).count 10,
         1 + ((bytes.take off.toNat).reverse.takeWhile (fun c => c != 10)).length) := by
  have hexit : (mainModel base config files).exitCode = 0 := by
    unfold mainModel; rw [hdec]
  have hwlen : (mainModel base config files).written.length = 2 := by
    unfold mainModel; rw [hdec]; rfl
  have hwarn : (mainModel base config files).warnings =
      (files.foldl (processFile base (buildIdToName artcc.videoMaps))
        ⟨[], [], []⟩).warnings := by
    unfold mainModel; rw [hdec]
  have hvm : vmapsOut (mainModel base config files) =
      some (files.foldl (processFile base (buildIdToName artcc.videoMaps))
        ⟨[], [], []⟩).videoMaps := by
    unfold mainModel; rw [hdec]; rfl
  refine ⟨hexit, hwlen, ?_, ⟨_, hvm, ?_⟩, fun bytes off => decodeOffset_spec bytes off⟩
  · rw [hwarn]
    exact foldl_warning_emitted base (buildIdToName artcc.videoMaps) files f name e
      hres herr ⟨[], [], []⟩ hmem
  · exact foldl_presence_of_resolver base (buildIdToName artcc.videoMaps) files f name
      hres ⟨[], [], []⟩ hmem

/-- C6 witness: the malformed `A2.geojson` produces a warning naming the
file and its cause while the run completes. -/
theorem c6_warning_and_diagnostic_witness :
    ("VideoMaps/ZNY/A2.geojson" ++ ": warning: " ++ "unexpected end of JSON input") ∈
      (mainModel "ZNY" wConfig [wFile1, wFile2]).warnings :=
  (c6_warning_and_diagnostic "ZNY" wConfig [wFile1, wFile2]
    ⟨[⟨"A1", "N", "n1", "A", 0⟩, ⟨"A2", "N", "n2", "B", 0⟩]⟩ wFile2 "N"
    "unexpected end of JSON input" (by decide) (by simp) (by decide) (by decide)).2.2.1

/-! ## Claim C7 -/

/-- C7: in directory-scan mode the aggregate has an entry for a display
name exactly when some presented `.geojson` file containing the facility
code has a base filename whose derived identifier maps to that name in
the catalog; geometry files outside the catalog and catalog entries
without geometry are simply absent, with no fatal error. -/
theorem c7_catalog_scan_filter (base : String) (config : JSONDoc) (files : List GeoFile)
    (artcc : ARTCC) (name : String)
    (hdec : decodeARTCCDoc config = (artcc, none)) :
    (mainModel base config files).exitCode = 0 ∧
    ∀ m, vmapsOut (mainModel base config files) = some m →
      ((alookup name m).isSome ↔
        ∃ f ∈ files, filepathExt f.path = ".geojson" ∧ strContains f.path base = true ∧
          alookup (cutSuffix (filepathBase f.path) ".geojson")
            (buildIdToName artcc.videoMaps) = some name) := by
  have hexit : (mainModel base config files).exitCode = 0 := by
    unfold mainModel; rw [hdec]
  have hvm : vmapsOut (mainModel base config files) =
      some (files.foldl (processFile base (buildIdToName artcc.videoMaps))
        ⟨[], [], []⟩).videoMaps := by
    unfold mainModel; rw [hdec]; rfl
  refine ⟨hexit, ?_⟩
  intro m hm
  rw [hvm] at hm
  have hmeq := Option.some_injective _ hm
  subst hmeq
  constructor
  · intro hsome
    by_contra hno
    push_neg at hno
    have hnone : ∀ g ∈ files,
        resolvedName base (buildIdToName artcc.videoMaps) g ≠ some name := by
      intro g hg hres
      rw [resolvedName_eq_some_iff] at hres
      exact hno g hg hres.1 hres.2.1 hres.2.2
    rw [foldl_no_resolver_lookup base (buildIdToName artcc.videoMaps) files name
      ⟨[], [], []⟩ hnone] at hsome
    simp [alookup] at hsome
  · rintro ⟨g, hg, h1, h2, h3⟩
    exact foldl_presence_of_resolver base (buildIdToName artcc.videoMaps) files g name
      (resolvedName_eq_some_iff base _ g name |>.mpr ⟨h1, h2, h3⟩) ⟨[], [], []⟩ hg

/-- C7 witness: the run over a single well-formed geometry file
completes without a fatal error. -/
theorem c7_catalog_scan_filter_witness :
    (mainModel "ZNY" wConfig [wFile1]).exitCode = 0 :=
  (c7_catalog_scan_filter "ZNY" wConfig [wFile1]
    ⟨[⟨"A1", "N", "n1", "A", 0⟩, ⟨"A2", "N", "n2", "B", 0⟩]⟩ "N" (by decide)).1

/-! ## Claim C8 -/

/-- C8: every point sequence stored in the serialized aggregate has even
length, and the empty sequence is a valid stored value (a run over only
a malformed document stores the entry `("N", [])`). -/
theorem c8_even_point_sequences (base : String) (config : JSONDoc) (files : List GeoFile) :
    (∀ m, vmapsOut (mainModel base config files) = some m →
      ∀ pr ∈ m, Even (pr.2 : List Point2LL).length) ∧
    vmapsOut (mainModel "ZNY" wConfig [wFile2]) = some [("N", [])] := by
  constructor
  · intro m hm pr hpr
    unfold mainModel at hm
    cases hd : decodeARTCCDoc config with
    | mk a eo =>
        rw [hd] at hm
        cases eo with
        | some e0 => simp [vmapsOut] at hm
        | none =>
            have hmeq : (files.foldl (processFile base (buildIdToName a.videoMaps))
                ⟨[], [], []⟩).videoMaps = m := Option.some_injective _ hm
            subst hmeq
            exact foldl_even base (buildIdToName a.videoMaps) files ⟨[], [], []⟩
              (by simp) pr hpr
  · decide

/-- C8 witness: the even-length invariant at a concrete stored entry. -/
theorem c8_even_point_sequences_witness :
    Even ([((1 : ℚ), (2 : ℚ)), ((3 : ℚ), (4 : ℚ)), ((3 : ℚ), (4 : ℚ)),
      ((5 : ℚ), (6 : ℚ))] : List Point2LL).length :=
  (c8_even_point_sequences "ZNY" wConfig [wFile1]).1
    [("N", [((1 : ℚ), (2 : ℚ)), ((3 : ℚ), (4 : ℚ)), ((3 : ℚ), (4 : ℚ)),
      ((5 : ℚ), (6 : ℚ))])] (by decide)
    ("N", [((1 : ℚ), (2 : ℚ)), ((3 : ℚ), (4 : ℚ)), ((3 : ℚ), (4 : ℚ)),
      ((5 : ℚ), (6 : ℚ))]) (by decide)

/-! ## Claim C10 -/

theorem isPrefixOf_append_self (l t : List Char) : l.isPrefixOf (l ++ t) = true := by
  induction l with
  | nil => cases t <;> rfl
  | cons c cs ih => simp [List.isPrefixOf, ih]

theorem listContains_append (sub pre suf : List Char) :
    listContains sub (pre ++ (sub ++ suf)) = true := by
  induction pre with
  | nil =>
      cases sub with
      | nil => cases suf <;> rfl
      | cons c cs =>
          rw [List.nil_append, List.cons_append]
          simp only [listContains]
          have h : (c :: cs).isPrefixOf (c :: (cs ++ suf)) = true := by
            have h0 := isPrefixOf_append_self (c :: cs) suf
            rwa [List.cons_append] at h0
          rw [h, Bool.true_or]
  | cons p ps ih =>
      rw [List.cons_append]
      cases sub with
      | nil => rfl
      | cons c cs =>
          simp only [listContains, ih, Bool.or_true]

theorem processFile_eq_noCheck (base : String) (idToName : List (String × String))
    (st : RunState) (f : GeoFile) (h : strContains f.path base = true) :
    processFile base idToName st f = processFileNoCheck base idToName st f := by
  unfold processFile processFileNoCheck
  by_cases h1 : filepathExt f.path = ".geojson"
  · simp [h1, h]
  · simp [h1]

/-- C10: the facility-code substring filter is vacuous in scan mode:
every path presented by a walk rooted at `VideoMaps/<base>` contains
`base` as a substring, so the run with the filter removed produces the
same result on every input whose paths come from that walk. -/
theorem c10_filter_vacuous (base : String) (config : JSONDoc) (files : List GeoFile)
    (hwalk : ∀ f ∈ files, ∃ rest, f.path = "VideoMaps/" ++ base ++ rest) :
    mainModel base config files = mainModelNoCheck base config files := by
  unfold mainModel mainModelNoCheck
  cases hdec : decodeARTCCDoc config with
  | mk a e =>
      cases e with
      | some e0 => rfl
      | none =>
          have hfold : files.foldl (processFile base (buildIdToName a.videoMaps))
              ⟨[], [], []⟩ =
              files.foldl (processFileNoCheck base (buildIdToName a.videoMaps))
              ⟨[], [], []⟩ := by
            apply List.foldl_ext
            intro st f hf
            apply processFile_eq_noCheck
            obtain ⟨rest, hp⟩ := hwalk f hf
            rw [hp]
            unfold strContains
            rw [String.data_append, String.data_append, List.append_assoc]
            exact listContains_append base.data "VideoMaps/".data rest.data
          dsimp only
          rw [hfold]

/-- C10 witness: equality of the two runs on the concrete walk files. -/
theorem c10_filter_vacuous_witness :
    mainModel "ZNY" wConfig [wFile1, wFile2] =
      mainModelNoCheck "ZNY" wConfig [wFile1, wFile2] :=
  c10_filter_vacuous "ZNY" wConfig [wFile1, wFile2] (by
    intro f hf
    rcases List.mem_cons.mp hf with h | h
    · exact ⟨"/A1.geojson", by rw [h]; rfl⟩
    · rcases List.mem_cons.mp h with h2 | h2
      · exact ⟨"/A2.geojson", by rw [h2]; rfl⟩
      · simp at h2)

end Crc2Vice
